import Mathlib

/-!
# Verification of the `progress` package (progress.go)

Shallow embedding of `progress.go`: the `Progress` snapshot value, its
accessors (`N`, `Size`, `Started`, `Complete`, `Percent`, `Remaining`,
`Estimated`) and the sampling loop of `NewTicker`.

Modelling conventions:

* `time.Time` values are integers (nanoseconds); the Go zero `time.Time`
  (for which `IsZero()` is true) is modelled as `0`, matching the use of
  `started.IsZero()` and the zero-valued `estimated` field in the source.
  `time.Duration` is likewise an integer number of nanoseconds.
* The `float64` fields `n` and `size` of `Progress` are modelled as
  rationals.  In the program they are only ever assigned `float64(x)` for
  an `int64` value `x` (lines `n: float64(counter.N())` and
  `size: float64(size)`), so the stored values are exactly the
  `float64`-rounded images of integers.  That int64-to-float64 rounding
  (round to nearest, ties to even, 53-bit significand) is modelled
  exactly by `f64ofInt`.  Arithmetic *between* already-stored values
  (the divisions in `Percent` and in the estimation step) is modelled as
  exact rational arithmetic, abstracting from the sub-ulp rounding of
  each float operation.
* Go's conversion of a `float64` to an integer type (`int64(p.n)`,
  `time.Duration(past / ratio)`) truncates toward zero; this is
  `ratTrunc`.  (For values outside the int64 range the Go result is
  implementation-defined; the model returns the mathematical truncation.)
* The goroutine of `NewTicker` is modelled as a fuel-indexed loop `runAux`
  producing the list of snapshots sent on the channel together with a
  boolean that is `true` exactly when the loop executed one of its
  `return` statements (so that `defer close(ch)` closed the channel) and
  `false` when the trace was cut off by exhausted fuel.  Tick `i` reads
  the counter value `counter i` and happens at wall-clock time `times i`
  (`time.Now()`); the context is modelled by `cancelAt`: the
  `<-ctx.Done()` branch of the `select` is taken at iteration `i` iff
  `cancelAt = some c` with `c ≤ i`.
-/

/-- Round a natural number to 53 significant bits, round-to-nearest with
ties to even: the significand rounding that `float64(x)` performs on the
magnitude of an `int64`.  Numbers below `2^53` are exactly representable
and returned unchanged. -/
def rnd53 (a : ℕ) : ℕ :=
  if a < 2 ^ 53 then a
  else
    let k := a.log2 - 52
    let u := 2 ^ k
    let q := a / u
    let r := a % u
    if 2 * r < u then q * u
    else if u < 2 * r then (q + 1) * u
    else if q % 2 = 0 then q * u else (q + 1) * u

/-- The exact value of the Go conversion `float64(x)` for an `int64`
argument `x` (every `int64` magnitude is far below the overflow threshold
of `float64`, so only significand rounding happens). -/
def f64ofInt (x : ℤ) : ℤ :=
  if x < 0 then -(rnd53 x.natAbs : ℤ) else (rnd53 x.natAbs : ℤ)

/-- Go's conversion of a `float64` to an integer type: truncation toward
zero. -/
def ratTrunc (q : ℚ) : ℤ :=
  if q < 0 then -((-q).num / ((-q).den : ℤ)) else q.num / (q.den : ℤ)

/-- The `Progress` struct of progress.go: `n` and `size` are the `float64`
fields (modelled as exact rationals), `estimated` is the `time.Time` field
(nanoseconds, `0` = the zero `time.Time`, i.e. "unset"). -/
structure Progress where
  n : ℚ
  size : ℚ
  estimated : ℤ
  deriving DecidableEq, Repr

namespace Progress

/-- `func (p Progress) N() int64 { return int64(p.n) }` -/
def N (p : Progress) : ℤ := ratTrunc p.n

/-- `func (p Progress) Size() int64 { return int64(p.size) }` -/
def Size (p : Progress) : ℤ := ratTrunc p.size

/-- `func (p Progress) Started() bool { return p.n > 0 }` -/
def Started (p : Progress) : Bool := decide (0 < p.n)

/-- `func (p Progress) Complete() bool { return p.n >= p.size }` -/
def Complete (p : Progress) : Bool := decide (p.size ≤ p.n)

/-- `func (p Progress) Percent() float64`: `0` if `n == 0`, `100` if
`n == size`, else `100.0 / (p.size / p.n)`. -/
def Percent (p : Progress) : ℚ :=
  if p.n = 0 then 0
  else if p.n = p.size then 100
  else 100 / (p.size / p.n)

/-- `func (p Progress) Remaining() time.Duration { return
p.estimated.Sub(time.Now()) }`, with the current wall-clock time passed
explicitly. -/
def Remaining (p : Progress) (now : ℤ) : ℤ := p.estimated - now

/-- `func (p Progress) Estimated() time.Time { return p.estimated }` -/
def Estimated (p : Progress) : ℤ := p.estimated

end Progress

/-- The body of one `case <-time.After(d):` iteration of the `NewTicker`
goroutine (progress.go lines 117-132): build the bare snapshot from the
counter reading `c` and the fixed `size`, then either record `started`
(first observed activity) or compute the estimate from the fixed `started`
anchor.  Returns the snapshot to be emitted and the new value of the
sampler-local `started` variable. -/
def tick (started : ℤ) (c : ℤ) (size : ℤ) (now : ℤ) : Progress × ℤ :=
  let progress : Progress :=
    { n := (f64ofInt c : ℚ), size := (f64ofInt size : ℚ), estimated := 0 }
  if started = 0 then
    if progress.Started then (progress, now) else (progress, started)
  else
    let ratio : ℚ := progress.n / progress.size
    let past : ℚ := ((now - started : ℤ) : ℚ)
    let future : ℤ := ratTrunc (past / ratio)
    ({ progress with estimated := started + future }, started)

/-- Whether the `<-ctx.Done()` branch of the `select` is taken at
iteration `i`: the context's cancellation, once fired (at iteration
`c`), stays fired. -/
def cancelHit (cancelAt : Option ℕ) (i : ℕ) : Bool :=
  match cancelAt with
  | none => false
  | some c => decide (c ≤ i)

/-- The `for { select { ... } }` loop of the `NewTicker` goroutine,
unrolled for `fuel` iterations starting at iteration `i` with the
sampler-local `started` variable.  Produces the snapshots sent on the
channel, and `true` iff the goroutine returned (closing the channel)
within the given fuel. -/
def runAux (counter : ℕ → ℤ) (size : ℤ) (times : ℕ → ℤ) (cancelAt : Option ℕ) :
    ℕ → ℕ → ℤ → List Progress × Bool
  | 0, _, _ => ([], false)
  | fuel + 1, i, started =>
    if cancelHit cancelAt i then ([], true)
    else
      let ps := tick started (counter i) size (times i)
      if ps.1.Complete then ([ps.1], true)
      else
        let rest := runAux counter size times cancelAt fuel (i + 1) ps.2
        (ps.1 :: rest.1, rest.2)

/-- A whole `NewTicker` run: iterations start at tick `1` (the first tick
happens one interval after start) with `started` the zero `time.Time`. -/
def run (counter : ℕ → ℤ) (size : ℤ) (times : ℕ → ℤ) (cancelAt : Option ℕ)
    (fuel : ℕ) : List Progress × Bool :=
  runAux counter size times cancelAt fuel 1 0

/-! ## Basic facts about the float64 rounding model -/

theorem rnd53_of_lt {a : ℕ} (h : a < 2 ^ 53) : rnd53 a = a := by
  unfold rnd53
  rw [if_pos h]

theorem log2_two_pow_53 : Nat.log2 (2 ^ 53) = 53 := by
  rw [Nat.log2_eq_log_two]
  exact Nat.log_pow (by norm_num) 53

theorem rnd53_of_le {a : ℕ} (h : a ≤ 2 ^ 53) : rnd53 a = a := by
  rcases Nat.lt_or_ge a (2 ^ 53) with hlt | hge
  · exact rnd53_of_lt hlt
  · have heq : a = 2 ^ 53 := le_antisymm h hge
    subst heq
    simp only [rnd53, log2_two_pow_53]
    norm_num

theorem one_le_rnd53 {a : ℕ} (h : 1 ≤ a) : 1 ≤ rnd53 a := by
  simp only [rnd53]
  split
  · exact h
  · have ha : a ≠ 0 := by omega
    have hu1 : 1 ≤ 2 ^ (a.log2 - 52) := Nat.one_le_two_pow
    have hu : 2 ^ (a.log2 - 52) ≤ a :=
      le_trans (Nat.pow_le_pow_right (by norm_num) (Nat.sub_le _ _)) (Nat.log2_self_le ha)
    have hq : 1 ≤ a / 2 ^ (a.log2 - 52) :=
      (Nat.one_le_div_iff (Nat.two_pow_pos _)).mpr hu
    split
    · calc 1 = 1 * 1 := by norm_num
        _ ≤ a / 2 ^ (a.log2 - 52) * 2 ^ (a.log2 - 52) := Nat.mul_le_mul hq hu1
    · split
      · calc 1 = 1 * 1 := by norm_num
          _ ≤ (a / 2 ^ (a.log2 - 52) + 1) * 2 ^ (a.log2 - 52) :=
            Nat.mul_le_mul (by omega) hu1
      · split
        · calc 1 = 1 * 1 := by norm_num
            _ ≤ a / 2 ^ (a.log2 - 52) * 2 ^ (a.log2 - 52) := Nat.mul_le_mul hq hu1
        · calc 1 = 1 * 1 := by norm_num
            _ ≤ (a / 2 ^ (a.log2 - 52) + 1) * 2 ^ (a.log2 - 52) :=
              Nat.mul_le_mul (by omega) hu1

theorem f64ofInt_of_abs_le {x : ℤ} (h : x.natAbs ≤ 2 ^ 53) : f64ofInt x = x := by
  simp only [f64ofInt, rnd53_of_le h]
  split <;> omega

theorem one_le_f64ofInt {x : ℤ} (h : 1 ≤ x) : 1 ≤ f64ofInt x := by
  simp only [f64ofInt, if_neg (by omega : ¬ x < 0)]
  have := one_le_rnd53 (a := x.natAbs) (by omega)
  omega

theorem f64ofInt_nonpos {x : ℤ} (h : x ≤ 0) : f64ofInt x ≤ 0 := by
  simp only [f64ofInt]
  split
  · omega
  · have hx : x = 0 := by omega
    subst hx
    simp [rnd53_of_le]

theorem f64ofInt_pos_iff {x : ℤ} : 0 < f64ofInt x ↔ 0 < x := by
  constructor
  · intro h
    by_contra hx
    have := f64ofInt_nonpos (x := x) (by omega)
    omega
  · intro h
    have := one_le_f64ofInt (x := x) (by omega)
    omega

theorem f64ofInt_zero : f64ofInt 0 = 0 := by
  simpa using f64ofInt_of_abs_le (x := 0) (by norm_num)

/-! ## Basic facts about float-to-integer truncation -/

theorem ratTrunc_intCast (n : ℤ) : ratTrunc (n : ℚ) = n := by
  simp only [ratTrunc]
  split
  · rw [show (-(n:ℚ)) = ((-n : ℤ) : ℚ) by push_cast; ring, Rat.num_intCast,
      Rat.den_intCast]
    simp
  · rw [Rat.num_intCast, Rat.den_intCast]
    simp

/-! ## Facts about one tick of the sampling loop -/

theorem tick_n (s c sz now : ℤ) : ((tick s c sz now).1).n = ((f64ofInt c : ℤ) : ℚ) := by
  simp only [tick]
  split
  · split <;> rfl
  · rfl

theorem tick_size (s c sz now : ℤ) :
    ((tick s c sz now).1).size = ((f64ofInt sz : ℤ) : ℚ) := by
  simp only [tick]
  split
  · split <;> rfl
  · rfl

theorem tick_est_of_zero (c sz now : ℤ) : ((tick 0 c sz now).1).estimated = 0 := by
  simp only [tick]
  split
  · split <;> rfl
  · rename_i hne
    exact absurd trivial hne

theorem tick_est_of_ne_zero (s c sz now : ℤ) (h : s ≠ 0) :
    ((tick s c sz now).1).estimated =
      s + ratTrunc (((now - s : ℤ) : ℚ) /
        (((f64ofInt c : ℤ) : ℚ) / ((f64ofInt sz : ℤ) : ℚ))) := by
  simp only [tick, if_neg h]

theorem tick_snd_of_ne_zero (s c sz now : ℤ) (h : s ≠ 0) : (tick s c sz now).2 = s := by
  simp only [tick, if_neg h]

theorem tick_snd_of_not_started (c sz now : ℤ) (h : ¬ 0 < f64ofInt c) :
    (tick 0 c sz now).2 = 0 := by
  simp only [tick]
  split
  · split
    · rename_i hb
      exfalso
      have hq : 0 < ((f64ofInt c : ℤ) : ℚ) := by
        simpa [Progress.Started] using hb
      exact h (by exact_mod_cast hq)
    · rfl
  · rename_i hne
    exact absurd trivial hne

theorem tick_snd_started (c sz now : ℤ) (h : (tick 0 c sz now).2 ≠ 0) :
    0 < ((f64ofInt c : ℤ) : ℚ) := by
  by_contra hq
  have h0 : ¬ 0 < f64ofInt c := fun hc => hq (by exact_mod_cast hc)
  exact h (tick_snd_of_not_started c sz now h0)

/-! ## Structure of the emitted snapshot list -/

/-- The fields `n` and `size` of the `k`-th snapshot produced from
iteration `i` on: `n` is the float64 image of the counter reading of
iteration `i + k`, `size` the float64 image of the fixed size. -/
theorem runAux_fields (counter : ℕ → ℤ) (size : ℤ) (times : ℕ → ℤ)
    (cancelAt : Option ℕ) :
    ∀ (fuel i : ℕ) (s : ℤ) (k : ℕ) (p : Progress),
      ((runAux counter size times cancelAt fuel i s).1)[k]? = some p →
      p.n = ((f64ofInt (counter (i + k)) : ℤ) : ℚ) ∧
        p.size = ((f64ofInt size : ℤ) : ℚ) := by
  intro fuel
  induction fuel with
  | zero => intro i s k p h; simp [runAux] at h
  | succ fuel ih =>
    intro i s k p h
    rw [runAux] at h
    by_cases hc : cancelHit cancelAt i = true
    · rw [if_pos hc] at h
      simp at h
    · rw [if_neg hc] at h
      by_cases hcomp : ((tick s (counter i) size (times i)).1).Complete = true
      · rw [if_pos hcomp] at h
        rcases k with _ | k
        · simp only [List.getElem?_cons_zero, Option.some.injEq] at h
          subst h
          simpa using ⟨tick_n _ _ _ _, tick_size _ _ _ _⟩
        · simp at h
      · rw [if_neg hcomp] at h
        rcases k with _ | k
        · simp only [List.getElem?_cons_zero, Option.some.injEq] at h
          subst h
          simpa using ⟨tick_n _ _ _ _, tick_size _ _ _ _⟩
        · simp only [List.getElem?_cons_succ] at h
          have := ih (i + 1) ((tick s (counter i) size (times i)).2) k p h
          rwa [show i + 1 + k = i + (k + 1) by omega] at this

/-- One-step equation for `runAux` when the cancellation branch of the
`select` is taken. -/
theorem runAux_step_cancel (counter : ℕ → ℤ) (size : ℤ) (times : ℕ → ℤ)
    (cancelAt : Option ℕ) (fuel i : ℕ) (s : ℤ)
    (hc : cancelHit cancelAt i = true) :
    runAux counter size times cancelAt (fuel + 1) i s = ([], true) := by
  rw [runAux, if_pos hc]

/-- One-step equation for `runAux` when the timer branch is taken and the
emitted snapshot is complete. -/
theorem runAux_step_complete (counter : ℕ → ℤ) (size : ℤ) (times : ℕ → ℤ)
    (cancelAt : Option ℕ) (fuel i : ℕ) (s : ℤ)
    (hc : ¬ cancelHit cancelAt i = true)
    (hcomp : ((tick s (counter i) size (times i)).1).Complete = true) :
    runAux counter size times cancelAt (fuel + 1) i s =
      ([(tick s (counter i) size (times i)).1], true) := by
  rw [runAux, if_neg hc]
  exact if_pos hcomp

/-- One-step equation for `runAux` when the timer branch is taken and the
emitted snapshot is not complete. -/
theorem runAux_step_cont (counter : ℕ → ℤ) (size : ℤ) (times : ℕ → ℤ)
    (cancelAt : Option ℕ) (fuel i : ℕ) (s : ℤ)
    (hc : ¬ cancelHit cancelAt i = true)
    (hcomp : ¬ ((tick s (counter i) size (times i)).1).Complete = true) :
    runAux counter size times cancelAt (fuel + 1) i s =
      ((tick s (counter i) size (times i)).1 ::
          (runAux counter size times cancelAt fuel (i + 1)
            ((tick s (counter i) size (times i)).2)).1,
        (runAux counter size times cancelAt fuel (i + 1)
          ((tick s (counter i) size (times i)).2)).2) := by
  rw [runAux, if_neg hc]
  exact if_neg hcomp

/-- All snapshots except possibly the last one are incomplete: the loop
returns right after emitting a complete snapshot. -/
theorem runAux_dropLast_incomplete (counter : ℕ → ℤ) (size : ℤ) (times : ℕ → ℤ)
    (cancelAt : Option ℕ) :
    ∀ (fuel i : ℕ) (s : ℤ) (p : Progress),
      p ∈ ((runAux counter size times cancelAt fuel i s).1).dropLast →
      p.Complete = false := by
  intro fuel
  induction fuel with
  | zero => intro i s p h; simp [runAux] at h
  | succ fuel ih =>
    intro i s p h
    by_cases hc : cancelHit cancelAt i = true
    · rw [runAux_step_cancel _ _ _ _ _ _ _ hc] at h
      simp at h
    · by_cases hcomp : ((tick s (counter i) size (times i)).1).Complete = true
      · rw [runAux_step_complete _ _ _ _ _ _ _ hc hcomp] at h
        simp at h
      · rw [runAux_step_cont _ _ _ _ _ _ _ hc hcomp] at h
        rcases hrest : (runAux counter size times cancelAt fuel (i + 1)
            ((tick s (counter i) size (times i)).2)).1 with _ | ⟨y, t⟩
        · rw [hrest] at h
          simp at h
        · rw [hrest] at h
          rw [List.dropLast_cons_of_ne_nil (by simp)] at h
          rcases List.mem_cons.mp h with hp | hp
          · subst hp
            simpa using hcomp
          · exact ih (i + 1) _ p (by rw [hrest]; exact hp)

/-- If a complete snapshot is ever emitted, the loop has returned and the
channel is closed. -/
theorem runAux_complete_closed (counter : ℕ → ℤ) (size : ℤ) (times : ℕ → ℤ)
    (cancelAt : Option ℕ) :
    ∀ (fuel i : ℕ) (s : ℤ) (p : Progress),
      p ∈ (runAux counter size times cancelAt fuel i s).1 →
      p.Complete = true →
      (runAux counter size times cancelAt fuel i s).2 = true := by
  intro fuel
  induction fuel with
  | zero => intro i s p h; simp [runAux] at h
  | succ fuel ih =>
    intro i s p h hcp
    by_cases hc : cancelHit cancelAt i = true
    · rw [runAux_step_cancel _ _ _ _ _ _ _ hc]
    · by_cases hcomp : ((tick s (counter i) size (times i)).1).Complete = true
      · rw [runAux_step_complete _ _ _ _ _ _ _ hc hcomp]
      · rw [runAux_step_cont _ _ _ _ _ _ _ hc hcomp] at h ⊢
        rcases List.mem_cons.mp h with hp | hp
        · subst hp
          exact absurd hcp (by simpa using hcomp)
        · exact ih (i + 1) _ p hp hcp

/-- Starting from an unset `started` anchor, a snapshot can carry a
non-zero estimate only if a strictly earlier snapshot of the same run
observed a positive count. -/
theorem runAux_est_activity (counter : ℕ → ℤ) (size : ℤ) (times : ℕ → ℤ)
    (cancelAt : Option ℕ) :
    ∀ (fuel i k : ℕ) (p : Progress),
      ((runAux counter size times cancelAt fuel i 0).1)[k]? = some p →
      p.estimated ≠ 0 →
      ∃ j, j < k ∧ ∃ q,
        ((runAux counter size times cancelAt fuel i 0).1)[j]? = some q ∧ 0 < q.n := by
  intro fuel
  induction fuel with
  | zero => intro i k p h _; simp [runAux] at h
  | succ fuel ih =>
    intro i k p h hest
    by_cases hc : cancelHit cancelAt i = true
    · rw [runAux_step_cancel _ _ _ _ _ _ _ hc] at h
      simp at h
    · by_cases hcomp : ((tick 0 (counter i) size (times i)).1).Complete = true
      · rw [runAux_step_complete _ _ _ _ _ _ _ hc hcomp] at h
        rcases k with _ | k
        · simp only [List.getElem?_cons_zero, Option.some.injEq] at h
          subst h
          exact absurd (tick_est_of_zero _ _ _) hest
        · simp at h
      · rw [runAux_step_cont _ _ _ _ _ _ _ hc hcomp] at h
        rcases k with _ | k
        · simp only [List.getElem?_cons_zero, Option.some.injEq] at h
          subst h
          exact absurd (tick_est_of_zero _ _ _) hest
        · simp only [List.getElem?_cons_succ] at h
          by_cases hs : (tick 0 (counter i) size (times i)).2 = 0
          · rw [hs] at h
            obtain ⟨j, hjk, q, hq, hqpos⟩ := ih (i + 1) k p h hest
            refine ⟨j + 1, by omega, q, ?_, hqpos⟩
            rw [runAux_step_cont _ _ _ _ _ _ _ hc hcomp]
            simpa [hs] using hq
          · refine ⟨0, by omega, (tick 0 (counter i) size (times i)).1, ?_, ?_⟩
            · rw [runAux_step_cont _ _ _ _ _ _ _ hc hcomp]
              simp
            · rw [tick_n]
              exact tick_snd_started _ _ _ hs

/-- In a run with target size `0`, no emitted snapshot ever carries an
estimate: a tick with non-negative count completes the run on the spot,
so the estimation branch (and its division by the zero ratio) is never
reached. -/
theorem runAux_zero_size_est (counter : ℕ → ℤ) (times : ℕ → ℤ)
    (cancelAt : Option ℕ) :
    ∀ (fuel i : ℕ) (p : Progress),
      p ∈ (runAux counter 0 times cancelAt fuel i 0).1 → p.estimated = 0 := by
  intro fuel
  induction fuel with
  | zero => intro i p h; simp [runAux] at h
  | succ fuel ih =>
    intro i p h
    by_cases hc : cancelHit cancelAt i = true
    · rw [runAux_step_cancel _ _ _ _ _ _ _ hc] at h
      simp at h
    · by_cases hcomp : ((tick 0 (counter i) 0 (times i)).1).Complete = true
      · rw [runAux_step_complete _ _ _ _ _ _ _ hc hcomp] at h
        simp only [List.mem_singleton] at h
        subst h
        exact tick_est_of_zero _ _ _
      · rw [runAux_step_cont _ _ _ _ _ _ _ hc hcomp] at h
        rcases List.mem_cons.mp h with hp | hp
        · subst hp
          exact tick_est_of_zero _ _ _
        · have hneg : ((tick 0 (counter i) 0 (times i)).1).n < 0 := by
            have hsz : ((tick 0 (counter i) 0 (times i)).1).size = 0 := by
              rw [tick_size, f64ofInt_zero]
              norm_num
            have := hcomp
            simp only [Progress.Complete, decide_eq_true_eq, hsz] at this
            linarith [not_le.mp this]
          have hs : (tick 0 (counter i) 0 (times i)).2 = 0 := by
            apply tick_snd_of_not_started
            intro hpos
            have : (0:ℚ) < ((f64ofInt (counter i) : ℤ) : ℚ) := by exact_mod_cast hpos
            rw [← tick_n 0 (counter i) 0 (times i)] at this
            linarith
          rw [hs] at hp
          exact ih (i + 1) p hp

/-- Cancelling at iteration `c` yields exactly the first `c - i` snapshots
of the uncancelled run from iteration `i`, and the channel is closed. -/
theorem runAux_cancel_take (counter : ℕ → ℤ) (size : ℤ) (times : ℕ → ℤ) (c : ℕ) :
    ∀ (fuel i : ℕ) (s : ℤ), i ≤ c → c - i < fuel →
      runAux counter size times (some c) fuel i s =
        (((runAux counter size times none fuel i s).1).take (c - i), true) := by
  intro fuel
  induction fuel with
  | zero => intro i s hic hfuel; omega
  | succ fuel ih =>
    intro i s hic hfuel
    by_cases hci : c ≤ i
    · have hi : i = c := by omega
      rw [runAux_step_cancel _ _ _ _ _ _ _ (by simp [cancelHit, hci])]
      rw [show c - i = 0 by omega]
      simp
    · have hcfalse : ¬ cancelHit (some c) i = true := by simp [cancelHit]; omega
      have hnone : ¬ cancelHit (none : Option ℕ) i = true := by simp [cancelHit]
      by_cases hcomp : ((tick s (counter i) size (times i)).1).Complete = true
      · rw [runAux_step_complete _ _ _ _ _ _ _ hcfalse hcomp,
          runAux_step_complete _ _ _ _ _ _ _ hnone hcomp]
        rw [show c - i = (c - i - 1) + 1 by omega]
        simp
      · rw [runAux_step_cont _ _ _ _ _ _ _ hcfalse hcomp,
          runAux_step_cont _ _ _ _ _ _ _ hnone hcomp]
        rw [ih (i + 1) ((tick s (counter i) size (times i)).2) (by omega) (by omega)]
        rw [show c - i = (c - i - 1) + 1 by omega, List.take_succ_cons]
        rw [show c - i - 1 = c - (i + 1) by omega]

theorem ratTrunc_of_nonneg {q : ℚ} (h : 0 ≤ q) : ratTrunc q = ⌊q⌋ := by
  simp only [ratTrunc, if_neg (not_lt.mpr h)]
  rw [Rat.floor_def]

theorem ratTrunc_intCast_div_natCast (n : ℤ) (d : ℕ) (hn : 0 ≤ n) :
    ratTrunc ((n : ℚ) / (d : ℚ)) = n / (d : ℤ) := by
  rw [ratTrunc_of_nonneg (by positivity), Rat.floor_intCast_div_natCast]

/-! ## The claims -/

/-- Claim C1: on any tick on which the sampler-local `started` timestamp is
already set (non-zero), the emitted snapshot's estimated completion is
`started + (now - started) / (count / size)` — the linear extrapolation
anchored at the first-activity timestamp, with the latest counter reading
and the fixed size (both as their float64 images), the division exact over
ℚ, and the resulting duration truncated to whole nanoseconds exactly as
the source's `time.Duration(past / ratio)` conversion does.  The anchor
itself is left unchanged. -/
theorem C1_estimation_formula (s c sz now : ℤ) (h : s ≠ 0) :
    ((tick s c sz now).1).estimated =
      s + ratTrunc (((now - s : ℤ) : ℚ) /
        (((f64ofInt c : ℤ) : ℚ) / ((f64ofInt sz : ℤ) : ℚ))) ∧
    (tick s c sz now).2 = s :=
  ⟨tick_est_of_ne_zero s c sz now h, tick_snd_of_ne_zero s c sz now h⟩

/-- Witness for C1: with `started = 10`, count `2`, size `5` and `now = 20`
the emitted estimate is `10 + (20 - 10) / (2 / 5) = 35`. -/
theorem C1_estimation_formula_witness :
    ((tick 10 2 5 20).1).estimated = 35 ∧ (tick 10 2 5 20).2 = 10 := by
  have h := C1_estimation_formula 10 2 5 20 (by norm_num)
  refine ⟨?_, h.2⟩
  rw [h.1, f64ofInt_of_abs_le (x := 2) (by norm_num),
    f64ofInt_of_abs_le (x := 5) (by norm_num)]
  rw [show (((20 - 10 : ℤ) : ℚ) / (((2 : ℤ) : ℚ) / ((5 : ℤ) : ℚ))) = ((25 : ℤ) : ℚ)
    by norm_num]
  rw [ratTrunc_intCast]
  norm_num

/-- Counterexample to claim C2: the snapshot with count `200` and size
`100` (reachable: the final snapshot of a run whose counter jumps past the
size) has count unequal to `0` and to `size`, yet its `Percent` is `200`,
not a value strictly between 0 and 100. -/
theorem C2_counterexample :
    Progress.Percent ⟨200, 100, 0⟩ = 200 ∧
    ¬ Progress.Percent ⟨200, 100, 0⟩ < 100 ∧
    (200 : ℚ) ≠ 0 ∧ (200 : ℚ) ≠ (100 : ℚ) ∧
    (run (fun _ => (200 : ℤ)) 100 (fun i => (i : ℤ)) none 1).1 = [⟨200, 100, 0⟩] := by
  have h200 : f64ofInt 200 = 200 := f64ofInt_of_abs_le (by norm_num)
  have h100 : f64ofInt 100 = 100 := f64ofInt_of_abs_le (by norm_num)
  refine ⟨by norm_num [Progress.Percent], by norm_num [Progress.Percent],
    by norm_num, by norm_num, ?_⟩
  norm_num [run, runAux, cancelHit, tick, Progress.Started, Progress.Complete,
    h200, h100]

/-- Claim C2, amended: `Percent` returns `0` whenever count is `0`
(including the degenerate count = size = 0 snapshot), `100` when
count = size ≠ 0, and otherwise exactly `100 * count / size`; that value
lies strictly between 0 and 100 whenever `0 < count < size`, but not in
general otherwise (count `200` against size `100` yields `200`). -/
theorem C2_percent_cases (p : Progress) :
    (p.n = 0 → p.Percent = 0) ∧
    (p.n ≠ 0 → p.n = p.size → p.Percent = 100) ∧
    (p.n ≠ 0 → p.Percent = 100 * p.n / p.size) ∧
    (0 < p.n → p.n < p.size → 0 < p.Percent ∧ p.Percent < 100) := by
  refine ⟨?_, ?_, ?_, ?_⟩
  · intro h
    simp [Progress.Percent, h]
  · intro h hns
    rw [Progress.Percent, if_neg h, if_pos hns]
  · intro h
    by_cases hns : p.n = p.size
    · have hsz : p.size ≠ 0 := hns ▸ h
      rw [Progress.Percent, if_neg h, if_pos hns, hns, mul_div_assoc,
        div_self hsz, mul_one]
    · rw [Progress.Percent, if_neg h, if_neg hns, div_div_eq_mul_div]
  · intro h0 hlt
    have hsz : 0 < p.size := lt_trans h0 hlt
    have hne : p.n ≠ 0 := ne_of_gt h0
    have hns : p.n ≠ p.size := ne_of_lt hlt
    rw [Progress.Percent, if_neg hne, if_neg hns]
    constructor
    · exact div_pos (by norm_num) (div_pos hsz h0)
    · rw [div_div_eq_mul_div, mul_div_assoc]
      calc 100 * (p.n / p.size) < 100 * 1 := by
            exact (mul_lt_mul_left (by norm_num)).mpr ((div_lt_one hsz).mpr hlt)
        _ = 100 := by norm_num

/-- Witness for C2 (amended): at count `50`, size `100` the percentage is
`100 * 50 / 100 = 50`, strictly between 0 and 100. -/
theorem C2_percent_cases_witness :
    Progress.Percent ⟨50, 100, 0⟩ = 100 * 50 / 100 ∧
    0 < Progress.Percent ⟨50, 100, 0⟩ ∧ Progress.Percent ⟨50, 100, 0⟩ < 100 := by
  have h := C2_percent_cases ⟨50, 100, 0⟩
  have h3 := h.2.2.1 (by norm_num)
  have h4 := h.2.2.2 (by norm_num) (by norm_num)
  exact ⟨h3, h4.1, h4.2⟩

/-- Claim C3: in every run, a complete snapshot (count has reached or
exceeded the size) can only be the last snapshot emitted — every snapshot
other than the last reports `Complete() = false` — and whenever a complete
snapshot is emitted the goroutine has returned, so the channel is closed
with no further snapshots. -/
theorem C3_complete_terminal (counter : ℕ → ℤ) (size : ℤ) (times : ℕ → ℤ)
    (cancelAt : Option ℕ) (fuel : ℕ) :
    (∀ p ∈ ((run counter size times cancelAt fuel).1).dropLast,
      p.Complete = false) ∧
    (∀ p ∈ (run counter size times cancelAt fuel).1, p.Complete = true →
      (run counter size times cancelAt fuel).2 = true) := by
  constructor
  · intro p hp
    exact runAux_dropLast_incomplete counter size times cancelAt fuel 1 0 p hp
  · intro p hp hcp
    exact runAux_complete_closed counter size times cancelAt fuel 1 0 p hp hcp

/-- Witness for C3: a counter that counts `1, 2, ...` against size `2`
emits `[⟨1,2,-⟩, ⟨2,2,-⟩]`; the non-final snapshot is incomplete and the
channel is closed after the complete one. -/
theorem C3_complete_terminal_witness :
    Progress.Complete ⟨1, 2, 0⟩ = false ∧
    (run (fun i => (i : ℤ)) 2 (fun i => (i : ℤ)) none 5).2 = true := by
  have h1 : f64ofInt 1 = 1 := f64ofInt_of_abs_le (by norm_num)
  have h2 : f64ofInt 2 = 2 := f64ofInt_of_abs_le (by norm_num)
  have e1 : ratTrunc ((1 : ℚ)) = 1 := by
    rw [show (1 : ℚ) = ((1 : ℤ) : ℚ) by norm_num, ratTrunc_intCast]
  have hrun : run (fun i => (i : ℤ)) 2 (fun i => (i : ℤ)) none 5 =
      ([⟨1, 2, 0⟩, ⟨2, 2, 2⟩], true) := by
    norm_num [run, runAux, cancelHit, tick, Progress.Started, Progress.Complete,
      h1, h2, e1]
  have h := C3_complete_terminal (fun i => (i : ℤ)) 2 (fun i => (i : ℤ)) none 5
  constructor
  · exact h.1 ⟨1, 2, 0⟩ (by rw [hrun]; simp)
  · exact h.2 ⟨2, 2, 2⟩ (by rw [hrun]; simp) (by norm_num [Progress.Complete])

theorem rnd53_pow53_add_one : rnd53 9007199254740993 = 9007199254740992 := by
  have hlog : Nat.log2 9007199254740993 = 53 := by
    rw [Nat.log2_eq_log_two]
    exact Nat.log_eq_of_pow_le_of_lt_pow (by norm_num) (by norm_num)
  simp only [rnd53, hlog]
  norm_num

theorem f64ofInt_pow53_add_one : f64ofInt 9007199254740993 = 9007199254740992 := by
  rw [f64ofInt, if_neg (by norm_num)]
  rw [show ((9007199254740993 : ℤ)).natAbs = 9007199254740993 from rfl,
    rnd53_pow53_add_one]
  norm_num

/-- Counterexample to claim C4: the value `2^53 + 1` is an `int64` that is
not exactly representable in `float64`; the conversion
`n: float64(counter.N())` rounds it (ties to even) to `2^53`, so the
emitted snapshot's `N()` is `2^53`, not the exact value the counter
returned at the sample instant. -/
theorem C4_counterexample :
    ((run (fun _ => (2 ^ 53 + 1 : ℤ)) 100 (fun i => (i : ℤ)) none 1).1).map
        Progress.N = [2 ^ 53] ∧
    (2 ^ 53 : ℤ) ≠ 2 ^ 53 + 1 := by
  have h100 : f64ofInt 100 = 100 := f64ofInt_of_abs_le (by norm_num)
  refine ⟨?_, by norm_num⟩
  have etr : ratTrunc ((9007199254740992 : ℚ)) = 9007199254740992 := by
    rw [show (9007199254740992 : ℚ) = ((9007199254740992 : ℤ) : ℚ) by norm_num,
      ratTrunc_intCast]
  norm_num [run, runAux, cancelHit, tick, Progress.Started, Progress.Complete,
    Progress.N, f64ofInt_pow53_add_one, h100, etr]

/-- Claim C4, amended: against a monotonically non-decreasing counter
whose readings are exactly representable in `float64` (magnitude at most
`2^53`), every emitted snapshot's `N()` equals the exact counter reading
of its sample instant (snapshot `k` is taken at tick `k + 1`), and the
snapshot counts are monotonically non-decreasing; for larger magnitudes
the stored count is the float64-rounded reading and exactness fails. -/
theorem C4_counts_exact_monotone (counter : ℕ → ℤ) (size : ℤ) (times : ℕ → ℤ)
    (cancelAt : Option ℕ) (fuel : ℕ)
    (hmono : ∀ i j, i ≤ j → counter i ≤ counter j)
    (hbound : ∀ i, (counter i).natAbs ≤ 2 ^ 53) :
    (∀ (k : ℕ) (p : Progress),
      ((run counter size times cancelAt fuel).1)[k]? = some p →
      p.N = counter (1 + k)) ∧
    (∀ (k l : ℕ) (p q : Progress), k ≤ l →
      ((run counter size times cancelAt fuel).1)[k]? = some p →
      ((run counter size times cancelAt fuel).1)[l]? = some q →
      p.N ≤ q.N) := by
  have hN : ∀ (k : ℕ) (p : Progress),
      ((run counter size times cancelAt fuel).1)[k]? = some p →
      p.N = counter (1 + k) := by
    intro k p h
    have hf := (runAux_fields counter size times cancelAt fuel 1 0 k p h).1
    rw [Progress.N, hf, ratTrunc_intCast, f64ofInt_of_abs_le (hbound (1 + k))]
  constructor
  · exact hN
  · intro k l p q hkl hk hl
    rw [hN k p hk, hN l q hl]
    exact hmono (1 + k) (1 + l) (by omega)

/-- Witness for C4 (amended): the constant counter `3` against size `10`
(sampled at times `1, 2, ...`) emits snapshots whose `N()` is exactly `3`,
and successive counts are non-decreasing. -/
theorem C4_counts_exact_monotone_witness :
    Progress.N ⟨3, 10, 0⟩ = 3 ∧ Progress.N ⟨3, 10, 0⟩ ≤ Progress.N ⟨3, 10, 4⟩ := by
  have h3 : f64ofInt 3 = 3 := f64ofInt_of_abs_le (by norm_num)
  have h10 : f64ofInt 10 = 10 := f64ofInt_of_abs_le (by norm_num)
  have e3 : ratTrunc ((10 : ℚ) / 3) = 3 := by
    rw [show ((10 : ℚ) / 3) = (((10 : ℤ) : ℚ) / ((3 : ℕ) : ℚ)) by norm_num]
    rw [ratTrunc_intCast_div_natCast _ _ (by norm_num)]
    norm_num
  have hrun : run (fun _ => (3 : ℤ)) 10 (fun i => (i : ℤ)) none 2 =
      ([⟨3, 10, 0⟩, ⟨3, 10, 4⟩], false) := by
    norm_num [run, runAux, cancelHit, tick, Progress.Started, Progress.Complete,
      h3, h10, e3]
  have h := C4_counts_exact_monotone (fun _ => (3 : ℤ)) 10 (fun i => (i : ℤ))
    none 2 (fun i j _ => le_refl 3) (fun i => by norm_num)
  constructor
  · exact h.1 0 ⟨3, 10, 0⟩ (by rw [hrun]; rfl)
  · exact h.2 0 1 ⟨3, 10, 0⟩ ⟨3, 10, 4⟩ (by omega) (by rw [hrun]; rfl)
      (by rw [hrun]; rfl)

/-- Claim C5: a snapshot carries a non-zero estimated-completion timestamp
only if a strictly earlier snapshot of the same run observed a positive
count; in particular the snapshot of the tick that first observes activity
(which sets the `started` anchor) has its estimate left unset (zero). -/
theorem C5_estimate_requires_activity (counter : ℕ → ℤ) (size : ℤ)
    (times : ℕ → ℤ) (cancelAt : Option ℕ) (fuel k : ℕ) (p : Progress)
    (h : ((run counter size times cancelAt fuel).1)[k]? = some p)
    (hest : p.estimated ≠ 0) :
    ∃ j, j < k ∧ ∃ q,
      ((run counter size times cancelAt fuel).1)[j]? = some q ∧ 0 < q.n :=
  runAux_est_activity counter size times cancelAt fuel 1 k p h hest

/-- Witness for C5: in the run of the counter `1, 2, 3, ...` against size
`5`, the second snapshot carries the estimate `35 ≠ 0`, and indeed the
first snapshot observed the positive count `1`. -/
theorem C5_estimate_requires_activity_witness :
    ∃ j, j < 1 ∧ ∃ q,
      ((run (fun i => (i : ℤ)) 5 (fun i => 10 * (i : ℤ)) none 3).1)[j]? = some q ∧
        0 < q.n := by
  have h1 : f64ofInt 1 = 1 := f64ofInt_of_abs_le (by norm_num)
  have h2 : f64ofInt 2 = 2 := f64ofInt_of_abs_le (by norm_num)
  have h3 : f64ofInt 3 = 3 := f64ofInt_of_abs_le (by norm_num)
  have h5 : f64ofInt 5 = 5 := f64ofInt_of_abs_le (by norm_num)
  have e25 : ratTrunc ((25 : ℚ)) = 25 := by
    rw [show (25 : ℚ) = ((25 : ℤ) : ℚ) by norm_num, ratTrunc_intCast]
  have e33 : ratTrunc ((100 : ℚ) / 3) = 33 := by
    rw [show ((100 : ℚ) / 3) = (((100 : ℤ) : ℚ) / ((3 : ℕ) : ℚ)) by norm_num]
    rw [ratTrunc_intCast_div_natCast _ _ (by norm_num)]
    norm_num
  have hrun : run (fun i => (i : ℤ)) 5 (fun i => 10 * (i : ℤ)) none 3 =
      ([⟨1, 5, 0⟩, ⟨2, 5, 35⟩, ⟨3, 5, 43⟩], false) := by
    norm_num [run, runAux, cancelHit, tick, Progress.Started, Progress.Complete,
      h1, h2, h3, h5, e25, e33]
  exact C5_estimate_requires_activity (fun i => (i : ℤ)) 5 (fun i => 10 * (i : ℤ))
    none 3 1 ⟨2, 5, 35⟩ (by rw [hrun]; rfl) (by norm_num)

/-- Counterexample to claim C6: in a run constructed with size `0` the
estimation branch is never reached, so no infinity/NaN is ever propagated
into an emitted snapshot's estimated completion.  Concretely, with a
counter stuck at `5`, the first tick observes positive count, records the
`started` anchor, emits a snapshot with the estimate still unset (zero),
and — since `count >= size` trivially holds for size `0` — closes the
channel at once, before any tick can execute the `count / size`
division. -/
theorem C6_counterexample :
    run (fun _ => (5 : ℤ)) 0 (fun i => 10 * (i : ℤ)) none 3 = ([⟨5, 0, 0⟩], true) ∧
    Progress.Estimated ⟨5, 0, 0⟩ = 0 := by
  have h5 : f64ofInt 5 = 5 := f64ofInt_of_abs_le (by norm_num)
  refine ⟨?_, rfl⟩
  norm_num [run, runAux, cancelHit, tick, Progress.Started, Progress.Complete,
    h5, f64ofInt_zero]

/-- Claim C6, amended: in every run constructed with size `0`, the
division `count / size` in the estimation branch is never executed — any
tick whose count is non-negative completes the run immediately (for size
`0`, `Complete()` is `count >= 0`), so the `started` anchor can never be
consulted on a later tick — and every emitted snapshot's estimated
completion is left unset (the zero `time.Time`); no infinity/NaN reaches
`estimatedCompletion` (nor, through it, `Remaining()`). -/
theorem C6_zero_size_no_estimate (counter : ℕ → ℤ) (times : ℕ → ℤ)
    (cancelAt : Option ℕ) (fuel : ℕ) (p : Progress)
    (hp : p ∈ (run counter 0 times cancelAt fuel).1) :
    p.Estimated = 0 ∧ ∀ now : ℤ, p.Remaining now = -now := by
  have h := runAux_zero_size_est counter times cancelAt fuel 1 p hp
  exact ⟨h, fun now => by rw [Progress.Remaining, h, zero_sub]⟩

/-- Witness for C6 (amended): the single snapshot of the size-`0` run of
the counter stuck at `5` has no estimate. -/
theorem C6_zero_size_no_estimate_witness :
    Progress.Estimated ⟨5, 0, 0⟩ = 0 ∧
      ∀ now : ℤ, Progress.Remaining ⟨5, 0, 0⟩ now = -now := by
  have h5 : f64ofInt 5 = 5 := f64ofInt_of_abs_le (by norm_num)
  have hrun : run (fun _ => (5 : ℤ)) 0 (fun i => 10 * (i : ℤ)) none 3 =
      ([⟨5, 0, 0⟩], true) := by
    norm_num [run, runAux, cancelHit, tick, Progress.Started, Progress.Complete,
      h5, f64ofInt_zero]
  exact C6_zero_size_no_estimate (fun _ => (5 : ℤ)) (fun i => 10 * (i : ℤ))
    none 3 ⟨5, 0, 0⟩ (by rw [hrun]; simp)

/-- Claim C7: if the cancellation signal fires at iteration `c` of a run
(and the run has at least `c` iterations of fuel), the channel is closed,
the emitted snapshots are exactly the first `c - 1` snapshots the
uncancelled run would have emitted — no snapshot is emitted for the
iteration in which cancellation was observed, nor for any later one. -/
theorem C7_cancellation_closes (counter : ℕ → ℤ) (size : ℤ) (times : ℕ → ℤ)
    (c fuel : ℕ) (hc : 1 ≤ c) (hfuel : c ≤ fuel) :
    run counter size times (some c) fuel =
      (((run counter size times none fuel).1).take (c - 1), true) ∧
    ((run counter size times (some c) fuel).1).length ≤ c - 1 := by
  have h := runAux_cancel_take counter size times c fuel 1 0 (by omega) (by omega)
  refine ⟨h, ?_⟩
  rw [run, h]
  exact List.length_take_le _ _

/-- Witness for C7: cancelling at iteration `3` the run of the counter
`1, 2, ...` against size `100` closes the channel after exactly the two
snapshots of ticks `1` and `2`. -/
theorem C7_cancellation_closes_witness :
    run (fun i => (i : ℤ)) 100 (fun i => (i : ℤ)) (some 3) 5 =
      (((run (fun i => (i : ℤ)) 100 (fun i => (i : ℤ)) none 5).1).take 2, true) ∧
    ((run (fun i => (i : ℤ)) 100 (fun i => (i : ℤ)) (some 3) 5).1).length ≤ 2 :=
  C7_cancellation_closes (fun i => (i : ℤ)) 100 (fun i => (i : ℤ)) 3 5
    (by norm_num) (by norm_num)

/-- Counterexample to claim C8: `2^53 + 1` is an `int64` that the
conversion `size: float64(size)` rounds to `2^53`, so the emitted
snapshot's `Size()` differs from the size argument supplied to
`NewTicker`. -/
theorem C8_counterexample :
    ((run (fun _ => (1 : ℤ)) 9007199254740993 (fun i => (i : ℤ)) none 1).1).map
        Progress.Size = [9007199254740992] ∧
    (9007199254740992 : ℤ) ≠ 9007199254740993 := by
  have h1 : f64ofInt 1 = 1 := f64ofInt_of_abs_le (by norm_num)
  have etr : ratTrunc ((9007199254740992 : ℚ)) = 9007199254740992 := by
    rw [show (9007199254740992 : ℚ) = ((9007199254740992 : ℤ) : ℚ) by norm_num,
      ratTrunc_intCast]
  refine ⟨?_, by norm_num⟩
  norm_num [run, runAux, cancelHit, tick, Progress.Started, Progress.Complete,
    Progress.Size, f64ofInt_pow53_add_one, h1, etr]

/-- Claim C8, amended: the size is fixed for a run's lifetime — every
emitted snapshot stores the same float64 image of the size argument — and
`Size()` returns exactly the `int64` size argument supplied to `NewTicker`
whenever that argument is exactly representable in `float64` (magnitude at
most `2^53`); for larger magnitudes `Size()` returns the float64-rounded
value instead. -/
theorem C8_size_fixed (counter : ℕ → ℤ) (size : ℤ) (times : ℕ → ℤ)
    (cancelAt : Option ℕ) (fuel : ℕ) :
    (∀ p ∈ (run counter size times cancelAt fuel).1,
      p.size = ((f64ofInt size : ℤ) : ℚ)) ∧
    (size.natAbs ≤ 2 ^ 53 →
      ∀ p ∈ (run counter size times cancelAt fuel).1, p.Size = size) := by
  have hs : ∀ p ∈ (run counter size times cancelAt fuel).1,
      p.size = ((f64ofInt size : ℤ) : ℚ) := by
    intro p hp
    obtain ⟨k, hk⟩ := List.mem_iff_getElem?.mp hp
    exact (runAux_fields counter size times cancelAt fuel 1 0 k p hk).2
  refine ⟨hs, fun hb p hp => ?_⟩
  rw [Progress.Size, hs p hp, ratTrunc_intCast, f64ofInt_of_abs_le hb]

/-- Witness for C8 (amended): in the run of the constant counter `3`
against size `10`, the first snapshot stores size `10` and reports
`Size() = 10`. -/
theorem C8_size_fixed_witness :
    (⟨3, 10, 0⟩ : Progress).size = ((f64ofInt 10 : ℤ) : ℚ) ∧
    Progress.Size ⟨3, 10, 0⟩ = 10 := by
  have h3 : f64ofInt 3 = 3 := f64ofInt_of_abs_le (by norm_num)
  have h10 : f64ofInt 10 = 10 := f64ofInt_of_abs_le (by norm_num)
  have hrun : run (fun _ => (3 : ℤ)) 10 (fun i => (i : ℤ)) none 1 =
      ([⟨3, 10, 0⟩], false) := by
    norm_num [run, runAux, cancelHit, tick, Progress.Started, Progress.Complete,
      h3, h10]
  have h := C8_size_fixed (fun _ => (3 : ℤ)) 10 (fun i => (i : ℤ)) none 1
  constructor
  · exact h.1 ⟨3, 10, 0⟩ (by rw [hrun]; simp)
  · exact h.2 (by norm_num) ⟨3, 10, 0⟩ (by rw [hrun]; simp)

/-- Claim C9: under the preconditions that the target size is positive and
the counter is monotonically non-decreasing, the division `past / ratio`
in the estimation branch never divides by zero: whenever the `started`
anchor is set — i.e. some strictly earlier snapshot observed a positive
count — the current snapshot's count is positive, so
`ratio = count / size` is non-zero and the unguarded division is safe. -/
theorem C9_ratio_nonzero (counter : ℕ → ℤ) (size : ℤ) (times : ℕ → ℤ)
    (cancelAt : Option ℕ) (fuel : ℕ)
    (hmono : ∀ i j, i ≤ j → counter i ≤ counter j) (hsize : 1 ≤ size)
    (k j : ℕ) (p q : Progress)
    (hk : ((run counter size times cancelAt fuel).1)[k]? = some p)
    (hj : ((run counter size times cancelAt fuel).1)[j]? = some q)
    (hjk : j < k) (hq : 0 < q.n) :
    0 < p.n ∧ p.n / p.size ≠ 0 := by
  have hfq := runAux_fields counter size times cancelAt fuel 1 0 j q hj
  have hfp := runAux_fields counter size times cancelAt fuel 1 0 k p hk
  have hcj : 0 < counter (1 + j) := by
    have h1 : (0 : ℚ) < ((f64ofInt (counter (1 + j)) : ℤ) : ℚ) := hfq.1 ▸ hq
    have h2 : 0 < f64ofInt (counter (1 + j)) := by exact_mod_cast h1
    exact f64ofInt_pos_iff.mp h2
  have hck : 1 ≤ counter (1 + k) :=
    le_trans (by omega) (hmono (1 + j) (1 + k) (by omega))
  have hpn : 0 < p.n := by
    rw [hfp.1]
    have h3 : (1 : ℤ) ≤ f64ofInt (counter (1 + k)) := one_le_f64ofInt hck
    have h4 : (1 : ℚ) ≤ ((f64ofInt (counter (1 + k)) : ℤ) : ℚ) := by exact_mod_cast h3
    linarith
  have hpsize : 0 < p.size := by
    rw [hfp.2]
    have h3 : (1 : ℤ) ≤ f64ofInt size := one_le_f64ofInt hsize
    have h4 : (1 : ℚ) ≤ ((f64ofInt size : ℤ) : ℚ) := by exact_mod_cast h3
    linarith
  exact ⟨hpn, ne_of_gt (div_pos hpn hpsize)⟩

/-- Witness for C9: in the run of the counter `1, 2, 3, ...` against size
`5`, the second snapshot (which carries an estimate) has positive count
`2` and non-zero ratio `2 / 5`. -/
theorem C9_ratio_nonzero_witness :
    0 < (⟨2, 5, 35⟩ : Progress).n ∧
      (⟨2, 5, 35⟩ : Progress).n / (⟨2, 5, 35⟩ : Progress).size ≠ 0 := by
  have h1 : f64ofInt 1 = 1 := f64ofInt_of_abs_le (by norm_num)
  have h2 : f64ofInt 2 = 2 := f64ofInt_of_abs_le (by norm_num)
  have h3 : f64ofInt 3 = 3 := f64ofInt_of_abs_le (by norm_num)
  have h5 : f64ofInt 5 = 5 := f64ofInt_of_abs_le (by norm_num)
  have e25 : ratTrunc ((25 : ℚ)) = 25 := by
    rw [show (25 : ℚ) = ((25 : ℤ) : ℚ) by norm_num, ratTrunc_intCast]
  have e33 : ratTrunc ((100 : ℚ) / 3) = 33 := by
    rw [show ((100 : ℚ) / 3) = (((100 : ℤ) : ℚ) / ((3 : ℕ) : ℚ)) by norm_num]
    rw [ratTrunc_intCast_div_natCast _ _ (by norm_num)]
    norm_num
  have hrun : run (fun i => (i : ℤ)) 5 (fun i => 10 * (i : ℤ)) none 3 =
      ([⟨1, 5, 0⟩, ⟨2, 5, 35⟩, ⟨3, 5, 43⟩], false) := by
    norm_num [run, runAux, cancelHit, tick, Progress.Started, Progress.Complete,
      h1, h2, h3, h5, e25, e33]
  exact C9_ratio_nonzero (fun i => (i : ℤ)) 5 (fun i => 10 * (i : ℤ)) none 3
    (fun i j h => by simpa using h) (by norm_num) 1 0 ⟨2, 5, 35⟩ ⟨1, 5, 0⟩
    (by rw [hrun]; rfl) (by rw [hrun]; rfl) (by omega) (by norm_num)

/-- Claim C10: a `Progress` value with count `0` and size `0` reports
`Complete() = true` (`0 >= 0`), `Started() = false` (`0 > 0` fails) and
`Percent() = 0` (the `count == 0` branch wins, not `100`); consequently a
zero-size run whose counter is stuck at `0` emits exactly one
estimate-free snapshot and closes the channel. -/
theorem C10_zero_zero (times : ℕ → ℤ) (fuel : ℕ) (e : ℤ) (hfuel : 1 ≤ fuel) :
    Progress.Complete ⟨0, 0, e⟩ = true ∧
    Progress.Started ⟨0, 0, e⟩ = false ∧
    Progress.Percent ⟨0, 0, e⟩ = 0 ∧
    run (fun _ => (0 : ℤ)) 0 times none fuel = ([⟨0, 0, 0⟩], true) := by
  refine ⟨by norm_num [Progress.Complete], by norm_num [Progress.Started],
    by norm_num [Progress.Percent], ?_⟩
  obtain ⟨m, rfl⟩ : ∃ m, fuel = m + 1 := ⟨fuel - 1, by omega⟩
  have htick : ∀ t : ℤ, tick 0 0 0 t = (⟨0, 0, 0⟩, 0) := by
    intro t
    norm_num [tick, Progress.Started, f64ofInt_zero]
  rw [run, runAux_step_complete _ _ _ _ _ _ _ (by simp [cancelHit])
    (by simpa [htick] using by norm_num [Progress.Complete] :
      ((tick 0 ((fun _ => (0 : ℤ)) 1) 0 (times 1)).1).Complete = true)]
  simp [htick]

/-- Witness for C10: with one tick of fuel and sample times `1, 2, ...`
the degenerate zero-zero run emits `[⟨0, 0, unset⟩]` and closes. -/
theorem C10_zero_zero_witness :
    Progress.Complete ⟨0, 0, 7⟩ = true ∧
    Progress.Percent ⟨0, 0, 7⟩ = 0 ∧
    run (fun _ => (0 : ℤ)) 0 (fun i => (i : ℤ)) none 1 = ([⟨0, 0, 0⟩], true) := by
  have h := C10_zero_zero (fun i => (i : ℤ)) 1 7 (by norm_num)
  exact ⟨h.1, h.2.2.1, h.2.2.2⟩
